import Mathlib

/-!
Shallow embedding of the `hammer` interactive load generator (Go), covering:
the self-expiring classification histogram (`addToHistogram` and its delayed
decrement goroutine), the rate controls (arrow-key doubling/halving of the
`int32` variable `reqQPS`), the two rate-emission strategies (`ticktock`'s
sleep of `time.Second / reqQPS`, and `hammer`'s per-second quota refill of the
work channel), the snapshot drawn by `draw` (sorted classification keys with
counts), the startup validation of the `--fetcher` flag, and one iteration of
the worker loop.

Go maps are embedded as association lists with Go's semantics (lookup of an
absent key yields the zero value 0; `delete` removes the key).  Go `int32`
arithmetic is embedded as `Int` with explicit wrapping modulo 2^32 into
[-2^31, 2^31), and Go integer division (truncation toward zero, panic on a
zero divisor) is embedded explicitly.
-/

/-- Association-list embedding of the Go map `histogram : map[string]int`. -/
abbrev Hist := List (String × Int)

/-- Go map read `m[s]`: the stored value, or the zero value 0 when absent. -/
def mapGet : Hist → String → Int
  | [], _ => 0
  | (k, v) :: m, s => if k = s then v else mapGet m s

/-- Go map write `m[s] = v`. -/
def mapSet : Hist → String → Int → Hist
  | [], s, v => [(s, v)]
  | (k, w) :: m, s, v => if k = s then (s, v) :: m else (k, w) :: mapSet m s v

/-- Go `delete(m, s)`. -/
def mapDelete : Hist → String → Hist
  | [], _ => []
  | (k, v) :: m, s => if k = s then mapDelete m s else (k, v) :: mapDelete m s

/-- Key-membership test of the embedded Go map. -/
def mapMem (m : Hist) (s : String) : Bool :=
  m.any (fun p => p.1 == s)

/-- The sliding window: one second, measured here in seconds. -/
def window : Nat := 1

/-- State of the result aggregator: current time, the histogram guarded by
`hmu`, and the decrements scheduled by `addToHistogram`'s goroutines, each
tagged with the time at which its `time.After(time.Second)` fires. -/
structure AggState where
  time : Nat
  hist : Hist
  pending : List (String × Nat)
deriving DecidableEq, Repr

/-- `addToHistogram(s)`: increment `histogram[s]` and schedule a decrement of
`s` exactly `window` after the recording time. -/
def addToHistogram (s : String) (st : AggState) : AggState :=
  { st with
    hist := mapSet st.hist s (mapGet st.hist s + 1)
    pending := st.pending ++ [(s, st.time + window)] }

/-- Body of the goroutine inside `addToHistogram`, run when its timer fires:
`histogram[s]--`, then `delete(histogram, s)` if the count reached zero. -/
def decrementEntry (s : String) (h : Hist) : Hist :=
  let h2 := mapSet h s (mapGet h s - 1)
  if mapGet h2 s = 0 then mapDelete h2 s else h2

/-- Advance the aggregator clock to time `t`, firing every scheduled
decrement whose timer has expired (in scheduling order). -/
def advanceTo (t : Nat) (st : AggState) : AggState :=
  { time := t
    hist := (st.pending.filter (fun p => decide (p.2 ≤ t))).foldl
      (fun h p => decrementEntry p.1 h) st.hist
    pending := st.pending.filter (fun p => decide (t < p.2)) }

/-- Lookup after writing the same key. -/
theorem mapGet_mapSet_self (m : Hist) (s : String) (v : Int) :
    mapGet (mapSet m s v) s = v := by
  induction m with
  | nil => simp [mapSet, mapGet]
  | cons p m ih =>
    by_cases hk : p.1 = s
    · simp [mapSet, hk, mapGet]
    · simp [mapSet, hk, mapGet, ih]

/-- Lookup after writing a different key. -/
theorem mapGet_mapSet_other (m : Hist) (s s' : String) (v : Int) (h : s ≠ s') :
    mapGet (mapSet m s v) s' = mapGet m s' := by
  induction m with
  | nil => simp [mapSet, mapGet, h]
  | cons p m ih =>
    by_cases hk : p.1 = s
    · simp [mapSet, hk, mapGet, h]
    · simp [mapSet, hk, mapGet, ih]

/-- A deleted key is no longer a member. -/
theorem mapMem_mapDelete_self (m : Hist) (s : String) :
    mapMem (mapDelete m s) s = false := by
  induction m with
  | nil => simp [mapDelete, mapMem]
  | cons p m ih =>
    by_cases hk : p.1 = s
    · simpa [mapDelete, hk] using ih
    · simp only [mapMem, List.any] at ih ⊢
      simp [mapDelete, hk, ih]

/-- Looking up a deleted key yields the zero value. -/
theorem mapGet_mapDelete_self (m : Hist) (s : String) :
    mapGet (mapDelete m s) s = 0 := by
  induction m with
  | nil => simp [mapDelete, mapGet]
  | cons p m ih =>
    by_cases hk : p.1 = s
    · simp [mapDelete, hk, ih]
    · simp [mapDelete, hk, mapGet, ih]

/-- The fired decrement always lowers the stored count of its key by one
(a removed key reads back as the zero value 0). -/
theorem mapGet_decrementEntry (s : String) (h : Hist) :
    mapGet (decrementEntry s h) s = mapGet h s - 1 := by
  unfold decrementEntry
  by_cases h0 : mapGet (mapSet h s (mapGet h s - 1)) s = 0
  · rw [mapGet_mapSet_self] at h0
    simp [mapGet_mapSet_self, h0, mapGet_mapDelete_self]
  · rw [mapGet_mapSet_self] at h0
    simp [mapGet_mapSet_self, h0]

/-- Wrap an integer into Go `int32` range [-2^31, 2^31), two's complement. -/
def int32wrap (n : Int) : Int :=
  (n + 2 ^ 31) % 2 ^ 32 - 2 ^ 31

/-- Go integer division: truncation toward zero (used here only with nonzero
divisors; `goDivInt32` adds the zero-divisor panic). -/
def goQuot (a b : Int) : Int :=
  if (0 ≤ a) = (0 ≤ b) then ((a.natAbs / b.natAbs : Nat) : Int)
  else -((a.natAbs / b.natAbs : Nat) : Int)

/-- Go `int32` division `a / b`: panics (`none`) on a zero divisor, otherwise
truncates toward zero and wraps (the `MinInt32 / -1` overflow case). -/
def goDivInt32 (a b : Int) : Option Int :=
  if b = 0 then none else some (int32wrap (goQuot a b))

/-- The up-arrow handler: `reqQPS := 2 * reqQPS` on `int32`. -/
def increaseRate (q : Int) : Int :=
  int32wrap (2 * q)

/-- The down-arrow handler: `reqQPS := reqQPS / 2` on `int32`. -/
def decreaseRate (q : Int) : Int :=
  goQuot q 2

/-- A control-surface operation on the target rate. -/
inductive RateOp
  | inc
  | dec
deriving DecidableEq, Repr

/-- Apply one rate-control key press. -/
def rateStep (q : Int) : RateOp → Int
  | .inc => increaseRate q
  | .dec => decreaseRate q

/-- Apply a finite sequence of rate-control key presses, oldest first. -/
def applyOps (l : List RateOp) (q : Int) : Int :=
  l.foldl rateStep q

/-- `int32(time.Second)`: one second in nanoseconds, which fits in `int32`. -/
def oneSecondNs : Int := 1000000000

/-- Delay computed by `ticktock`'s loop body,
`time.Sleep(time.Duration(int32(time.Second) / atomic.LoadInt32(&reqQPS)))`:
a Go `int32` division by the current rate, with no zero guard. -/
def ticktockDelay (q : Int) : Option Int :=
  goDivInt32 oneSecondNs q

/-- The drain loop at the top of `hammer`'s refill tick: receive from
`workChan` until it is empty, leaving 0 tickets. -/
def drainChan : Nat → Nat
  | 0 => 0
  | _ + 1 => 0

/-- The emission loop of `hammer`'s refill tick,
`for i := int32(0); i < reqQPS; i++ { workChan <- struct{}{} }`:
the body runs once for each `i` in `[0, q)`, each run adding one ticket. -/
def emitTickets (q : Int) (c : Nat) : Nat :=
  c + q.toNat

/-- One refill tick of `hammer`: drain `workChan`, then emit the quota
sampled from `reqQPS`.  Returns the resulting number of tickets. -/
def refillTick (q : Int) (c : Nat) : Nat :=
  emitTickets q (drainChan c)

/-- Result of `main`'s startup sequence. -/
inductive StartupResult
  | exited (code : Int)
  | started
deriving DecidableEq, Repr

/-- The `switch *fetcher` validation at the top of `main`: only "go", "noop"
and "curl" are accepted. -/
def validateFetcher (f : String) : Bool :=
  if f = "go" then true
  else if f = "noop" then true
  else if f = "curl" then true
  else false

/-- `main`'s startup: on an unknown `--fetcher` value it prints the error and
calls `os.Exit(1)` before `go hammer(...)` spawns any worker. -/
def mainStartup (f : String) : StartupResult :=
  if validateFetcher f then .started else .exited 1

/-- Whether one worker-loop iteration with fetcher `f` takes the `default`
branch of its `switch *fetcher`, recording the "Unrecognized value for
--fetcher" classification. -/
def isUnrecognizedBranch (f : String) : Bool :=
  if f = "curl" then false
  else if f = "go" then false
  else if f = "noop" then false
  else true

/-- Embedded `*http.Response`: its status code and whether reading or closing
its body fails (the error text when it does). -/
structure Resp where
  status : Nat
  readErr : Option String
  closeErr : Option String
deriving DecidableEq, Repr

/-- Embedded result of `client.Get(url)`: an optional response and an
optional error. -/
structure HTTPResult where
  resp : Option Resp
  err : Option String
deriving DecidableEq, Repr

/-- The status text computed from a non-nil error: the last `": "`-separated
part of `err.Error()`. -/
def lastErrPart (e : String) : String :=
  (e.splitOn ": ").getLastD e

/-- One observable step of a worker-loop iteration: invoking the request
executor, or recording one classification in the aggregator. -/
inductive WAction
  | invoke
  | record (c : String)
deriving DecidableEq, Repr

/-- The `case "go"` body of the worker loop, given the result of the one
`client.Get` call and the table `st` standing for `http.StatusText`.
Returns the classifications recorded, or `none` for the nil-pointer panic the
code would hit if `client.Get` returned neither a response nor an error. -/
def goCase (st : Nat → String) (r : HTTPResult) : Option (List String) :=
  match r.resp with
  | some rp =>
    match rp.readErr with
    | some e => some ["Failed to read response body: " ++ e]
    | none =>
      match rp.closeErr with
      | some e => some ["Failed to close response body: " ++ e]
      | none =>
        match r.err with
        | some e => some [lastErrPart e]
        | none => some [st rp.status]
  | none =>
    match r.err with
    | some e => some [lastErrPart e]
    | none => none

/-- One iteration of the worker loop after consuming a permission: the
`switch *fetcher` with cases "curl", "go", "noop" and the default branch.
`g` is the result the one `client.Get` call would return, `curlOut` the
combined output of the one `curl` invocation. -/
def workerIter (st : Nat → String) (f : String) (g : HTTPResult)
    (curlOut : String) : Option (List WAction) :=
  if f = "curl" then some [.invoke, .record curlOut]
  else if f = "go" then (goCase st g).map (fun rs => .invoke :: rs.map .record)
  else if f = "noop" then some [.invoke, .record "Did nothing"]
  else some [.record ("Unrecognized value for --fetcher: \"" ++ f ++ "\"\n")]

/-- Number of executor invocations in a worker-iteration trace. -/
def countInvokes (tr : List WAction) : Nat :=
  tr.countP (fun a => a == .invoke)

/-- Number of classifications recorded in a worker-iteration trace. -/
def countRecords (tr : List WAction) : Nat :=
  tr.countP (fun a => match a with | .record _ => true | .invoke => false)

/-- The classification keys in the order `draw` presents them:
`sort.Strings(keys)`, i.e. lexicographically sorted. -/
def snapshotKeys (h : Hist) : List String :=
  List.insertionSort (fun a b => a ≤ b) (h.map Prod.fst)

/-- The data `draw` reads and presents: the target rate, the worker count and
the sorted classification counts.  (`draw` also prints `requestTimeout()`,
a function of these same two scalars and of no outcome data, so it is
reflected by the `targetRate` and `workerCount` fields.) -/
structure Snapshot where
  targetRate : Int
  workerCount : Int
  statusCounts : List (String × Int)
deriving DecidableEq, Repr

/-- The snapshot `draw` takes of the shared state. -/
def snapshotOf (r w : Int) (h : Hist) : Snapshot :=
  { targetRate := r
    workerCount := w
    statusCounts := (snapshotKeys h).map (fun k => (k, mapGet h k)) }

/-- Record a batch of completed outcomes `(classification, latency)` in the
aggregator: the worker calls `addToHistogram` with the classification only,
so the latency component is dropped at this point in the code. -/
def recordOutcomes (outs : List (String × Nat)) (st : AggState) : AggState :=
  outs.foldl (fun a o => addToHistogram o.1 a) st

/-- Modelled from the spec, not the code: "the maximum latency currently
within the window" that §4.3 requires `snapshot()` to return.  No function of
the source computes any latency statistic; this definition follows the spec's
words to compare against the code's snapshot. -/
def specMaxLatency (outs : List (String × Nat)) : Nat :=
  outs.foldl (fun m o => max m o.2) 0

/-- The empty aggregator state at time 0, as at program start. -/
def initAgg : AggState :=
  { time := 0, hist := [], pending := [] }

/-- C1: `addToHistogram` increments the count of its classification by exactly
one and leaves every other count unchanged; it schedules a decrement of the
same classification at exactly `window` (one second) after the recording
time; a scheduled decrement, once fired, lowers that count by exactly one and
removes the key when the count reaches zero; and advancing the clock to or
past the scheduled time fires a lone scheduled decrement automatically, with
no explicit delete call by any consumer. -/
theorem C1_record_then_expire (st : AggState) (s s' : String) (h : Hist)
    (t : Nat) :
    mapGet (addToHistogram s st).hist s = mapGet st.hist s + 1
    ∧ (s' ≠ s → mapGet (addToHistogram s st).hist s' = mapGet st.hist s')
    ∧ (s, st.time + window) ∈ (addToHistogram s st).pending
    ∧ mapGet (decrementEntry s h) s = mapGet h s - 1
    ∧ (mapGet h s = 1 → mapMem (decrementEntry s h) s = false)
    ∧ (st.pending = [(s, st.time + window)] → st.time + window ≤ t →
        (advanceTo t st).hist = decrementEntry s st.hist
        ∧ (advanceTo t st).pending = []) := by
  refine ⟨mapGet_mapSet_self _ _ _, ?_, ?_, mapGet_decrementEntry s h, ?_, ?_⟩
  · intro hne
    exact mapGet_mapSet_other _ _ _ _ (fun he => hne he.symm)
  · simp [addToHistogram]
  · intro h1
    unfold decrementEntry
    rw [if_pos (by rw [mapGet_mapSet_self, h1]; ring)]
    exact mapMem_mapDelete_self _ _
  · intro hp ht
    have hnt : ¬ t < st.time + window := by omega
    constructor
    · simp [advanceTo, hp, List.filter, ht]
    · simp [advanceTo, hp, List.filter, hnt]

/-- C1 witness: concrete instance with all hypotheses discharged. -/
theorem C1_record_then_expire_witness :
    mapGet (addToHistogram "OK" ⟨0, [("OK", 2)], [("OK", 1)]⟩).hist "NO"
      = mapGet [("OK", 2)] "NO"
    ∧ mapMem (decrementEntry "OK" [("OK", 1)]) "OK" = false
    ∧ ((advanceTo 3 ⟨0, [("OK", 2)], [("OK", 1)]⟩).hist
        = decrementEntry "OK" [("OK", 2)]
      ∧ (advanceTo 3 ⟨0, [("OK", 2)], [("OK", 1)]⟩).pending = []) :=
  ⟨(C1_record_then_expire ⟨0, [("OK", 2)], [("OK", 1)]⟩ "OK" "NO" [] 3).2.1
      (by decide),
   (C1_record_then_expire ⟨0, [("OK", 2)], [("OK", 1)]⟩ "OK" "NO" [("OK", 1)]
      3).2.2.2.2.1 (by decide),
   (C1_record_then_expire ⟨0, [("OK", 2)], [("OK", 1)]⟩ "OK" "NO" [] 3
      ).2.2.2.2.2 (by decide) (by decide)⟩

/-- C2: recording "OK" five times at time 0 and letting the window elapse
with no further recordings leaves a histogram in which "OK" is absent (the
entry was deleted on reaching count zero), not present with count 0: the
histogram is empty. -/
theorem C2_roundtrip_ok_absent :
    (advanceTo 1 (addToHistogram "OK" (addToHistogram "OK" (addToHistogram
        "OK" (addToHistogram "OK" (addToHistogram "OK" initAgg)))))).hist = []
    ∧ mapMem (advanceTo 1 (addToHistogram "OK" (addToHistogram "OK"
        (addToHistogram "OK" (addToHistogram "OK" (addToHistogram "OK"
        initAgg)))))).hist "OK" = false := by
  decide

/-- C3: at target rate 0 the quota-refill emission path (`hammer`) does emit
zero permissions, but the claim's guarded-division part fails in the
sleep-based emission path: `ticktock` computes `int32(time.Second) / reqQPS`
with no zero guard, so at rate 0 the division panics (`none`). -/
theorem C3_zero_rate_divides (c : Nat) :
    refillTick 0 c = 0 ∧ ticktockDelay 0 = none := by
  refine ⟨?_, rfl⟩
  cases c <;> rfl

/-- C4: one refill tick of `hammer` drains the channel and then emits exactly
the quota sampled from the current rate, so for every nonnegative sampled
rate and every prior channel content the number of permissions made available
for that second equals the sampled rate. -/
theorem C4_refill_emits_quota (q : Int) (c : Nat) (h : 0 ≤ q) :
    (refillTick q c : Int) = q := by
  have hd : drainChan c = 0 := by cases c <;> rfl
  simp [refillTick, emitTickets, hd, Int.toNat_of_nonneg h]

/-- C4 witness: a rate of 3 yields exactly 3 permissions. -/
theorem C4_refill_emits_quota_witness :
    (0 : Int) ≤ 3 ∧ (refillTick 3 7 : Int) = 3 :=
  ⟨by decide, C4_refill_emits_quota 3 7 (by decide)⟩

/-- Values already in `int32` range are unchanged by wrapping. -/
theorem int32wrap_eq_self (n : Int) (h1 : -(2 ^ 31) ≤ n) (h2 : n < 2 ^ 31) :
    int32wrap n = n := by
  unfold int32wrap
  rw [Int.emod_eq_of_lt (by omega) (by omega)]
  omega

/-- Halving a nonnegative rate keeps it nonnegative and does not increase
it. -/
theorem decreaseRate_nonneg_le (q : Int) (h : 0 ≤ q) :
    0 ≤ decreaseRate q ∧ decreaseRate q ≤ q := by
  unfold decreaseRate goQuot
  rw [if_pos (by simp [h])]
  refine ⟨Int.ofNat_nonneg _, ?_⟩
  calc ((q.natAbs / 2 : Nat) : Int) ≤ (q.natAbs : Int) := by
        exact_mod_cast Nat.div_le_self _ _
    _ = q := Int.natAbs_of_nonneg h

/-- Any sequence of rate operations keeps the rate in [0, 2^30] as long as
the starting value times 2 to the number of operations stays at most 2^30
(so no doubling can overflow `int32`). -/
theorem applyOps_bounded (l : List RateOp) (q : Int) (h0 : 0 ≤ q)
    (hb : q * 2 ^ l.length ≤ 2 ^ 30) :
    0 ≤ applyOps l q ∧ applyOps l q ≤ 2 ^ 30 := by
  induction l generalizing q with
  | nil =>
    refine ⟨h0, ?_⟩
    simpa [applyOps] using hb
  | cons op l ih =>
    have hpow : (0 : Int) < 2 ^ l.length := by positivity
    cases op with
    | inc =>
      have hq2 : 2 * q * 2 ^ l.length ≤ 2 ^ 30 := by
        have he : q * 2 ^ (l.length + 1) = 2 * q * 2 ^ l.length := by ring
        rw [List.length_cons, he] at hb
        exact hb
      have h2q : (0 : Int) ≤ 2 * q := by omega
      have hle : 2 * q ≤ 2 ^ 30 := by nlinarith
      have hw : increaseRate q = 2 * q :=
        int32wrap_eq_self _ (by omega) (by omega)
      have hgoal := ih (2 * q) h2q hq2
      simpa [applyOps, rateStep, hw] using hgoal
    | dec =>
      obtain ⟨hd0, hdle⟩ := decreaseRate_nonneg_le q h0
      have hq2 : decreaseRate q * 2 ^ l.length ≤ 2 ^ 30 := by
        have h1 : decreaseRate q * 2 ^ l.length ≤ q * 2 ^ l.length :=
          mul_le_mul_of_nonneg_right hdle (le_of_lt hpow)
        have h2 : q * 2 ^ l.length ≤ q * 2 ^ (l.length + 1) := by
          have : (2 : Int) ^ l.length ≤ 2 ^ (l.length + 1) := by
            have := pow_le_pow_right₀ (by norm_num : (1 : Int) ≤ 2)
              (Nat.le_succ l.length)
            exact this
          exact mul_le_mul_of_nonneg_left this h0
        rw [List.length_cons] at hb
        linarith
      have hgoal := ih (decreaseRate q) hd0 hq2
      simpa [applyOps, rateStep] using hgoal

set_option maxRecDepth 100000 in
/-- C6 counterexample: thirty-one consecutive rate doublings from the initial
rate 1 overflow `int32` to -2147483648, a negative target rate, refuting
"never negative" for arbitrary finite control sequences. -/
theorem C6_counterexample :
    applyOps (List.replicate 31 .inc) 1 = -2147483648
    ∧ applyOps (List.replicate 31 .inc) 1 < 0 := by
  decide

/-- C6 amended: for every sequence of at most 30 rate-control operations
applied to the initial target rate 1, the resulting rate is never negative
(it stays within [0, 2^30]); the 31st consecutive doubling is the shortest
sequence that overflows. -/
theorem C6_short_sequences_nonneg (l : List RateOp) (h : l.length ≤ 30) :
    0 ≤ applyOps l 1 := by
  refine (applyOps_bounded l 1 (by norm_num) ?_).1
  have : (2 : Int) ^ l.length ≤ 2 ^ 30 :=
    pow_le_pow_right₀ (by norm_num) h
  linarith

/-- C6 witness: thirty doublings stay nonnegative. -/
theorem C6_short_sequences_nonneg_witness :
    (List.replicate 30 RateOp.inc).length ≤ 30
    ∧ 0 ≤ applyOps (List.replicate 30 .inc) 1 :=
  ⟨by decide, C6_short_sequences_nonneg _ (by decide)⟩

/-- C10: the rate 0 is reached by one halving from the initial rate 1, and 0
is absorbing for both controls: doubling and halving leave it at 0, and no
finite sequence of control operations started at 0 yields anything but 0 (in
particular never a positive rate). -/
theorem C10_zero_absorbing (l : List RateOp) :
    decreaseRate 1 = 0
    ∧ increaseRate 0 = 0
    ∧ decreaseRate 0 = 0
    ∧ applyOps l 0 = 0 := by
  refine ⟨by decide, by decide, by decide, ?_⟩
  induction l with
  | nil => rfl
  | cons op l ih =>
    cases op with
    | inc =>
      simpa [applyOps, rateStep, (by decide : increaseRate 0 = 0)] using ih
    | dec =>
      simpa [applyOps, rateStep, (by decide : decreaseRate 0 = 0)] using ih

/-- C7: an unknown `--fetcher` value makes `main` exit with code 1 at startup
before any worker starts; and whenever startup validation passed, a worker
iteration cannot take the `default` branch that records the "Unrecognized
value for --fetcher" classification. -/
theorem C7_unknown_fetcher_fatal (f : String) :
    (validateFetcher f = false → mainStartup f = .exited 1)
    ∧ (mainStartup f = .started → isUnrecognizedBranch f = false) := by
  constructor
  · intro h
    simp [mainStartup, h]
  · intro h
    unfold mainStartup at h
    by_cases hv : validateFetcher f = true
    · unfold validateFetcher at hv
      unfold isUnrecognizedBranch
      by_cases h1 : f = "go" <;> by_cases h2 : f = "noop" <;>
        by_cases h3 : f = "curl" <;> simp_all
    · simp [hv] at h

/-- C7 witness: "bogus" is rejected at startup; "go" passes validation and
its worker iteration avoids the unrecognized branch. -/
theorem C7_unknown_fetcher_fatal_witness :
    (validateFetcher "bogus" = false ∧ mainStartup "bogus" = .exited 1)
    ∧ (mainStartup "go" = .started ∧ isUnrecognizedBranch "go" = false) :=
  ⟨⟨by decide, (C7_unknown_fetcher_fatal "bogus").1 (by decide)⟩,
   ⟨by decide, (C7_unknown_fetcher_fatal "go").2 (by decide)⟩⟩

/-- C8: for each of the three configured fetcher variants and every executor
result (success, transport error, body-read failure, body-close failure)
satisfying the Go client contract that a nil error comes with a non-nil
response, one worker-loop iteration invokes the request executor exactly once
and records exactly one classification in the aggregator. -/
theorem C8_one_invoke_one_record (st : Nat → String) (f : String)
    (g : HTTPResult) (curlOut : String)
    (hf : f = "go" ∨ f = "noop" ∨ f = "curl")
    (hc : g.err = none → g.resp ≠ none) :
    ∃ tr, workerIter st f g curlOut = some tr
      ∧ countInvokes tr = 1 ∧ countRecords tr = 1 := by
  rcases hf with hf | hf | hf <;> subst hf
  · obtain ⟨resp, err⟩ := g
    cases resp with
    | some rp =>
      obtain ⟨stc, re, ce⟩ := rp
      cases re with
      | some e => exact ⟨_, rfl, rfl, rfl⟩
      | none =>
        cases ce with
        | some e => exact ⟨_, rfl, rfl, rfl⟩
        | none =>
          cases err with
          | some e => exact ⟨_, rfl, rfl, rfl⟩
          | none => exact ⟨_, rfl, rfl, rfl⟩
    | none =>
      cases err with
      | some e => exact ⟨_, rfl, rfl, rfl⟩
      | none => exact absurd (hc rfl) (by simp)
  · exact ⟨_, rfl, rfl, rfl⟩
  · exact ⟨_, rfl, rfl, rfl⟩

/-- C8 witness: the "noop" variant with a transport-error executor result. -/
theorem C8_one_invoke_one_record_witness :
    ((("noop" : String) = "go" ∨ ("noop" : String) = "noop"
        ∨ ("noop" : String) = "curl")
    ∧ ((HTTPResult.mk none (some "connection refused")).err = none →
        (HTTPResult.mk none (some "connection refused")).resp ≠ none))
    ∧ ∃ tr, workerIter (fun n => toString n) "noop"
          ⟨none, some "connection refused"⟩ "out" = some tr
        ∧ countInvokes tr = 1 ∧ countRecords tr = 1 :=
  ⟨⟨Or.inr (Or.inl rfl), fun h => nomatch h⟩,
   C8_one_invoke_one_record (fun n => toString n) "noop"
     ⟨none, some "connection refused"⟩ "out" (Or.inr (Or.inl rfl))
     (fun h => nomatch h)⟩

/-- C9: `draw` presents the classification keys lexicographically sorted, so
two histograms with the same keys (as a multiset) are presented with their
keys in the same deterministic order. -/
theorem C9_keys_sorted_deterministic (h1 h2 : Hist)
    (hp : (h1.map Prod.fst).Perm (h2.map Prod.fst)) :
    List.Sorted (fun a b => a ≤ b) (snapshotKeys h1)
    ∧ snapshotKeys h1 = snapshotKeys h2 := by
  constructor
  · exact List.sorted_insertionSort _ _
  · exact List.eq_of_perm_of_sorted
      ((List.perm_insertionSort _ _).trans
        (hp.trans (List.perm_insertionSort _ _).symm))
      (List.sorted_insertionSort _ _) (List.sorted_insertionSort _ _)

/-- C9 witness: two orderings of the same two-key histogram. -/
theorem C9_keys_sorted_deterministic_witness :
    (([(("b" : String), (1 : Int)), ("a", 2)].map Prod.fst).Perm
      ([(("a" : String), (2 : Int)), ("b", 1)].map Prod.fst))
    ∧ (List.Sorted (fun a b => a ≤ b) (snapshotKeys [("b", 1), ("a", 2)])
      ∧ snapshotKeys [("b", 1), ("a", 2)] = snapshotKeys [("a", 2), ("b", 1)]) :=
  ⟨by decide, C9_keys_sorted_deterministic [("b", 1), ("a", 2)]
    [("a", 2), ("b", 1)] (by decide)⟩

/-- C5 counterexample: the worker passes only the classification string to
`addToHistogram`, dropping latency, so no function of the drawn snapshot can
return the maximum latency within the window: two outcome batches with
different maximum latencies yield identical snapshots. -/
theorem C5_counterexample :
    ¬ ∃ ml : Snapshot → Nat, ∀ outs : List (String × Nat),
        ml (snapshotOf 1 100 (recordOutcomes outs initAgg).hist)
          = specMaxLatency outs := by
  rintro ⟨ml, hml⟩
  have h1 := hml [("OK", 10)]
  have h2 := hml [("OK", 500)]
  have he : snapshotOf 1 100 (recordOutcomes [("OK", 10)] initAgg).hist
      = snapshotOf 1 100 (recordOutcomes [("OK", 500)] initAgg).hist := by
    decide
  have hne : specMaxLatency [("OK", 10)] ≠ specMaxLatency [("OK", 500)] := by
    decide
  exact hne (by rw [← h1, ← h2, he])

/-- C5 amended: every snapshot contains the target rate, the worker count and
the status counts with keys in lexicographic order, each listed count equal
to the histogram's count for its key; the maximum latency is not part of the
snapshot, as the aggregator stores no latency data. -/
theorem C5_snapshot_contents (r w : Int) (h : Hist) (p : String × Int)
    (hp : p ∈ (snapshotOf r w h).statusCounts) :
    (snapshotOf r w h).targetRate = r
    ∧ (snapshotOf r w h).workerCount = w
    ∧ List.Sorted (fun a b => a ≤ b)
        ((snapshotOf r w h).statusCounts.map Prod.fst)
    ∧ p.2 = mapGet h p.1 := by
  refine ⟨rfl, rfl, ?_, ?_⟩
  · have hm : (snapshotOf r w h).statusCounts.map Prod.fst = snapshotKeys h := by
      simp only [snapshotOf, List.map_map]
      have hc : (Prod.fst ∘ fun k : String => (k, mapGet h k)) = id := rfl
      rw [hc, List.map_id]
    rw [hm]
    unfold snapshotKeys
    exact List.sorted_insertionSort _ _
  · simp only [snapshotOf] at hp
    obtain ⟨k, hk, rfl⟩ := List.mem_map.mp hp
    rfl

/-- C5 witness: a one-key histogram. -/
theorem C5_snapshot_contents_witness :
    ((("OK" : String), (2 : Int)) ∈ (snapshotOf 1 100 [("OK", 2)]).statusCounts
    ∧ ((snapshotOf 1 100 [("OK", 2)]).targetRate = 1
      ∧ (snapshotOf 1 100 [("OK", 2)]).workerCount = 100
      ∧ List.Sorted (fun a b => a ≤ b)
          ((snapshotOf 1 100 [("OK", 2)]).statusCounts.map Prod.fst)
      ∧ (("OK" : String), (2 : Int)).2 = mapGet [("OK", 2)] ("OK", (2 : Int)).1)) :=
  ⟨by decide, C5_snapshot_contents 1 100 [("OK", 2)] ("OK", 2) (by decide)⟩
